import Mathlib

/-!
Shallow embedding, in Lean 4, of the backend engine of the rusty-commander
repository (a dual-pane file manager), together with proofs about the
embedded operations.  Each Rust function referenced by a claim is translated
into an executable Lean definition: pure functions become Lean functions,
the process-wide caches become explicit state values threaded through the
operations, machine integers become Nat (with an explicit reduction modulo
2^64 where usize overflow matters), and fallible or panicking code returns
Option / Except / an explicit run-result type.
-/

set_option maxRecDepth 4096

/-!  The FileEntry record (src-tauri/src/file_system/operations.rs). -/

/-- Embedding of the Rust struct FileEntry (operations.rs).  The u64 and u32
fields are modelled as Nat; Rust Option maps to Lean Option; timestamps are
seconds since the epoch, exactly as stored in the Rust struct. -/
structure FileEntry where
  name : String
  path : String
  is_directory : Bool
  is_symlink : Bool
  size : Option Nat
  modified_at : Option Nat
  created_at : Option Nat
  added_at : Option Nat
  opened_at : Option Nat
  permissions : Nat
  owner : String
  group : String
  icon_id : String
  extended_metadata_loaded : Bool
  deriving DecidableEq, Repr

/-!  Claim C7: keychain credential blob round-trip
     (src-tauri/src/network/keychain.rs). -/

/-- The null character, the separator of the stored credential blob. -/
def nulChar : Char := Char.ofNat 0

/-- Embedding of make_password_entry (keychain.rs): the stored blob is the
username bytes, one null byte, then the password bytes.  Rust strings are
valid UTF-8, and 0x00 appears in UTF-8 only as the encoding of U+0000, so the
byte string is modelled faithfully as the list of its characters. -/
def make_password_entry (username password : List Char) : List Char :=
  username ++ nulChar :: password

/-- Helper embedding of text.splitn(2, null): splits at the first null byte
only; none when the blob holds no null byte at all. -/
def splitOnFirstNul : List Char → Option (List Char × List Char)
  | [] => none
  | c :: cs =>
    if c = nulChar then some ([], cs)
    else (splitOnFirstNul cs).map (fun p => (c :: p.1, p.2))

/-- Embedding of the Rust struct SmbCredentials (keychain.rs). -/
structure SmbCredentials where
  username : List Char
  password : List Char
  deriving DecidableEq, Repr

/-- Embedding of parse_password_entry (keychain.rs).  from_utf8_lossy is the
identity on the valid-UTF-8 blobs produced by make_password_entry, and
splitn(2, null) yields two parts exactly when the blob holds a null byte. -/
def parse_password_entry (data : List Char) : Option SmbCredentials :=
  match splitOnFirstNul data with
  | some p => some ⟨p.1, p.2⟩
  | none => none

theorem splitOnFirstNul_append (u p : List Char) (hu : nulChar ∉ u) :
    splitOnFirstNul (u ++ nulChar :: p) = some (u, p) := by
  induction u with
  | nil => simp [splitOnFirstNul]
  | cons c cs ih =>
    have hc : c ≠ nulChar := fun h => hu (h ▸ List.mem_cons_self c cs)
    have hcs : nulChar ∉ cs := fun h => hu (List.mem_cons_of_mem c h)
    simp [splitOnFirstNul, hc, ih hcs]

/-- Claim C7: for every username u containing no null byte and every password
p (which may contain null bytes), parsing the stored credential blob produced
from (u, p) returns exactly the pair (u, p), so save followed by get
round-trips the credentials. -/
theorem c7_keychain_roundtrip (u p : List Char) (hu : nulChar ∉ u) :
    parse_password_entry (make_password_entry u p) = some ⟨u, p⟩ := by
  simp [parse_password_entry, make_password_entry, splitOnFirstNul_append u p hu]

/-- Witness for c7_keychain_roundtrip at a concrete username and a password
that itself contains a null byte. -/
theorem c7_keychain_roundtrip_witness :
    parse_password_entry (make_password_entry ['u', 's'] ['p', nulChar, 'w']) =
      some ⟨['u', 's'], ['p', nulChar, 'w']⟩ :=
  c7_keychain_roundtrip ['u', 's'] ['p', nulChar, 'w'] (by decide)

/-!  Claim C8: service_name_to_hostname (src-tauri/src/network/mod.rs).
The Unicode test char::is_alphanumeric is a std-library primitive; the
embedding abstracts it as a parameter, so every statement below holds for the
actual Rust classification (on which only isAlnum nulChar = false is used).
Lowercasing in this function is Rust char::to_ascii_lowercase, embedded
exactly. -/

/-- Embedding of Rust char::to_ascii_lowercase. -/
def asciiLower (c : Char) : Char :=
  if 'A' ≤ c ∧ c ≤ 'Z' then Char.ofNat (c.toNat + 32) else c

/-- The apostrophe character. -/
def apostrophe : Char := Char.ofNat 39

/-- Decidable test for the dash character. -/
def isDash (c : Char) : Bool := c = '-'

/-- One step of the char map in service_name_to_hostname: alphanumerics are
ascii-lowercased, space / apostrophe / hyphen become a dash, and every other
character becomes the NUL sentinel that the subsequent filter removes. -/
def hostnameMapStep (isAlnum : Char → Bool) (c : Char) : Char :=
  if isAlnum c then asciiLower c
  else if c = ' ' ∨ c = apostrophe ∨ c = '-' then '-'
  else nulChar

/-- The cleaned string of service_name_to_hostname: the char map followed by
the filter that removes the NUL sentinel. -/
def hostnameCleaned (isAlnum : Char → Bool) (name : List Char) : List Char :=
  (name.map (hostnameMapStep isAlnum)).filter (fun c => c ≠ nulChar)

/-- The dash-collapsing loop of service_name_to_hostname, carrying the
last_was_dash flag; the flag starts as true so leading dashes are dropped. -/
def collapseDashes : List Char → Bool → List Char
  | [], _ => []
  | c :: cs, lastDash =>
    if c = '-' then
      if lastDash then collapseDashes cs true
      else '-' :: collapseDashes cs true
    else c :: collapseDashes cs false

/-- Embedding of the final step of service_name_to_hostname: pop one trailing
dash when the built string ends with a dash. -/
def popTrailingDash (l : List Char) : List Char :=
  if l.getLast? = some '-' then l.dropLast else l

/-- Embedding of service_name_to_hostname (network/mod.rs). -/
def service_name_to_hostname (isAlnum : Char → Bool) (name : List Char) : List Char :=
  popTrailingDash (collapseDashes (hostnameCleaned isAlnum name) true) ++ ".local".data

/-- Spec-side cleaned name, defined independently from the words of the
claim: the name lowercased, each space, apostrophe and hyphen mapped to a
dash, and every other non-alphanumeric character dropped. -/
def specCleaned (isAlnum : Char → Bool) (name : List Char) : List Char :=
  name.filterMap (fun c =>
    if isAlnum c then some (asciiLower c)
    else if c = ' ' ∨ c = apostrophe ∨ c = '-' then some '-'
    else none)

/-- Spec-side collapsing of runs of consecutive dashes to a single dash. -/
def squeezeDashes : List Char → List Char
  | [] => []
  | [c] => [c]
  | a :: b :: rest =>
    if a = '-' ∧ b = '-' then squeezeDashes (b :: rest)
    else a :: squeezeDashes (b :: rest)

/-- Spec-side removal of leading dashes. -/
def trimLeadingDashes (l : List Char) : List Char := l.dropWhile isDash

/-- Spec-side removal of trailing dashes. -/
def trimTrailingDashes (l : List Char) : List Char :=
  (l.reverse.dropWhile isDash).reverse

/-- The hostname fallback exactly as the claim words it. -/
def specHostnameFallback (isAlnum : Char → Bool) (name : List Char) : List Char :=
  trimTrailingDashes (trimLeadingDashes (squeezeDashes (specCleaned isAlnum name))) ++ ".local".data

theorem ofNat_ne_nul_of_lower_range (m : Nat) (h1 : 97 ≤ m) (h2 : m ≤ 122) :
    Char.ofNat m ≠ nulChar := by
  have : nulChar = Char.ofNat 0 := rfl
  rw [this]
  interval_cases m <;> decide

theorem asciiLower_ne_nul (isAlnum : Char → Bool) (hnul : isAlnum nulChar = false)
    (c : Char) (h1 : isAlnum c = true) : asciiLower c ≠ nulChar := by
  unfold asciiLower
  split
  · rename_i hr
    have ha : (65 : Nat) ≤ c.toNat := by
      have := hr.1
      simp [Char.le_def] at this
      exact this
    have hb : c.toNat ≤ 90 := by
      have := hr.2
      simp [Char.le_def] at this
      exact this
    exact ofNat_ne_nul_of_lower_range (c.toNat + 32) (by omega) (by omega)
  · intro h
    rw [h] at h1
    rw [hnul] at h1
    exact Bool.noConfusion h1

theorem hostnameCleaned_eq_specCleaned (isAlnum : Char → Bool)
    (hnul : isAlnum nulChar = false) (name : List Char) :
    hostnameCleaned isAlnum name = specCleaned isAlnum name := by
  induction name with
  | nil => rfl
  | cons c cs ih =>
    unfold hostnameCleaned specCleaned at *
    simp only [ne_eq, decide_not] at ih ⊢
    by_cases h1 : isAlnum c = true
    · have hlow := asciiLower_ne_nul isAlnum hnul c h1
      simp [hostnameMapStep, h1, hlow, ih]
    · have h1f : isAlnum c = false := by
        cases hc : isAlnum c
        · rfl
        · exact absurd hc h1
      by_cases h2 : c = ' ' ∨ c = apostrophe ∨ c = '-'
      · have hd : ('-' : Char) ≠ nulChar := by decide
        simp [hostnameMapStep, h1f, h2, hd, ih]
      · simp [hostnameMapStep, h1f, h2, ih]

theorem squeezeDashes_cons_of_ne (c : Char) (cs : List Char) (hc : c ≠ '-') :
    squeezeDashes (c :: cs) = c :: squeezeDashes cs := by
  cases cs with
  | nil => rfl
  | cons b rest => simp [squeezeDashes, hc]

theorem squeezeDashes_dash_cons (cs : List Char) :
    squeezeDashes ('-' :: cs) = '-' :: squeezeDashes (cs.dropWhile isDash) := by
  induction cs with
  | nil => rfl
  | cons b rest ih =>
    by_cases hb : b = '-'
    · subst hb
      show squeezeDashes ('-' :: '-' :: rest) = _
      rw [squeezeDashes]
      rw [if_pos ⟨rfl, rfl⟩]
      rw [ih]
      have : List.dropWhile isDash ('-' :: rest) = List.dropWhile isDash rest := by
        rw [List.dropWhile_cons, if_pos (by simp [isDash])]
      rw [this]
    · rw [squeezeDashes]
      rw [if_neg (fun h => hb h.2)]
      have : List.dropWhile isDash (b :: rest) = b :: rest := by
        rw [List.dropWhile_cons, if_neg (by simp [isDash, hb])]
      rw [this]

theorem collapseDashes_spec (l : List Char) :
    collapseDashes l false = squeezeDashes l ∧
    collapseDashes l true = squeezeDashes (l.dropWhile isDash) := by
  induction l with
  | nil => exact ⟨rfl, rfl⟩
  | cons c cs ih =>
    constructor
    · by_cases hc : c = '-'
      · subst hc
        show collapseDashes ('-' :: cs) false = _
        rw [collapseDashes]
        rw [if_pos rfl]
        rw [if_neg (by decide : ¬(false = true))]
        rw [ih.2, squeezeDashes_dash_cons]
      · rw [collapseDashes]
        rw [if_neg hc, ih.1, squeezeDashes_cons_of_ne c cs hc]
    · by_cases hc : c = '-'
      · subst hc
        show collapseDashes ('-' :: cs) true = _
        rw [collapseDashes]
        rw [if_pos rfl]
        rw [if_pos (by decide : true = true)]
        rw [ih.2]
        have : List.dropWhile isDash ('-' :: cs) = List.dropWhile isDash cs := by
          rw [List.dropWhile_cons, if_pos (by simp [isDash])]
        rw [this]
      · rw [collapseDashes]
        rw [if_neg hc, ih.1]
        have : List.dropWhile isDash (c :: cs) = c :: cs := by
          rw [List.dropWhile_cons, if_neg (by simp [isDash, hc])]
        rw [this]
        rw [squeezeDashes_cons_of_ne c cs hc]

theorem dropWhile_head_false (p : Char → Bool) (cs : List Char) (d : Char) (rest : List Char)
    (h : cs.dropWhile p = d :: rest) : p d = false := by
  induction cs with
  | nil => simp at h
  | cons a as ih =>
    rw [List.dropWhile_cons] at h
    by_cases ha : p a = true
    · rw [if_pos ha] at h
      exact ih h
    · rw [if_neg ha] at h
      cases h
      exact Bool.not_eq_true _ |>.mp ha

theorem dropWhile_squeeze_dropWhile (cs : List Char) :
    (squeezeDashes (cs.dropWhile isDash)).dropWhile isDash
      = squeezeDashes (cs.dropWhile isDash) := by
  cases h : cs.dropWhile isDash with
  | nil => rfl
  | cons d rest =>
    have hd : isDash d = false := dropWhile_head_false isDash cs d rest h
    have hd2 : d ≠ '-' := by
      intro he
      rw [he] at hd
      simp [isDash] at hd
    rw [squeezeDashes_cons_of_ne d rest hd2]
    rw [List.dropWhile_cons, if_neg (by simp [hd])]

theorem trimLeading_squeeze (l : List Char) :
    trimLeadingDashes (squeezeDashes l) = squeezeDashes (trimLeadingDashes l) := by
  unfold trimLeadingDashes
  cases l with
  | nil => rfl
  | cons c cs =>
    by_cases hc : c = '-'
    · subst hc
      rw [squeezeDashes_dash_cons]
      rw [List.dropWhile_cons, if_pos (by simp [isDash])]
      rw [List.dropWhile_cons, if_pos (by simp [isDash])]
      exact dropWhile_squeeze_dropWhile cs
    · rw [squeezeDashes_cons_of_ne c cs hc]
      rw [List.dropWhile_cons, if_neg (by simp [isDash, hc])]
      rw [List.dropWhile_cons, if_neg (by simp [isDash, hc])]
      rw [squeezeDashes_cons_of_ne c cs hc]

theorem squeezeDashes_head (b : Char) (rest : List Char) :
    (squeezeDashes (b :: rest)).head? = some b := by
  induction rest generalizing b with
  | nil => rfl
  | cons c r ih =>
    by_cases h : b = '-' ∧ c = '-'
    · rw [squeezeDashes, if_pos h, ih c, h.1, h.2]
    · rw [squeezeDashes, if_neg h]
      rfl

theorem squeezeDashes_noAdj (l : List Char) :
    List.Chain' (fun a b => ¬(a = '-' ∧ b = '-')) (squeezeDashes l) := by
  induction l with
  | nil => simp [squeezeDashes]
  | cons c cs ih =>
    cases cs with
    | nil => simp [squeezeDashes]
    | cons b rest =>
      by_cases h : c = '-' ∧ b = '-'
      · rw [squeezeDashes, if_pos h]
        exact ih
      · rw [squeezeDashes, if_neg h]
        have hh := squeezeDashes_head b rest
        cases hsq : squeezeDashes (b :: rest) with
        | nil => simp
        | cons x xs =>
          rw [hsq] at hh
          have hxb : x = b := by
            simpa using hh
          rw [List.chain'_cons]
          constructor
          · rw [hxb]
            exact h
          · rw [← hsq]
            exact ih

theorem trimTrailing_cons (a : Char) (xs : List Char)
    (hcond : a ≠ '-' ∨ ∃ x ∈ xs, isDash x = false) :
    trimTrailingDashes (a :: xs) = a :: trimTrailingDashes xs := by
  unfold trimTrailingDashes
  rw [List.reverse_cons, List.dropWhile_append]
  cases hrev : xs.reverse.dropWhile isDash with
  | nil =>
    have hall : ∀ x ∈ xs, isDash x = true := by
      intro x hx
      have hx' : x ∈ xs.reverse := List.mem_reverse.mpr hx
      by_contra hne
      have := List.dropWhile_eq_nil_iff.mp hrev x hx'
      exact hne this
    have ha : a ≠ '-' := by
      rcases hcond with h | ⟨x, hx, hfx⟩
      · exact h
      · rw [hall x hx] at hfx
        exact absurd hfx (by decide)
    simp only [List.isEmpty_nil, if_true]
    rw [List.dropWhile_cons, if_neg (by simp [isDash, ha])]
    rfl
  | cons d ds =>
    simp

theorem popTrailing_eq_trimTrailing (l : List Char)
    (h : List.Chain' (fun a b => ¬(a = '-' ∧ b = '-')) l) :
    popTrailingDash l = trimTrailingDashes l := by
  induction l with
  | nil => rfl
  | cons a tail ih =>
    cases tail with
    | nil =>
      by_cases ha : a = '-'
      · subst ha
        decide
      · unfold popTrailingDash trimTrailingDashes
        rw [List.getLast?_singleton]
        rw [if_neg (by simpa using ha)]
        rw [List.reverse_singleton, List.dropWhile_cons]
        rw [if_neg (by simp [isDash, ha])]
        rfl
    | cons b rest =>
      have h1 : ¬(a = '-' ∧ b = '-') := (List.chain'_cons.mp h).1
      have h2 := (List.chain'_cons.mp h).2
      have hpop : popTrailingDash (a :: b :: rest) = a :: popTrailingDash (b :: rest) := by
        unfold popTrailingDash
        rw [List.getLast?_cons_cons]
        by_cases hl : (b :: rest).getLast? = some '-'
        · rw [if_pos hl, if_pos hl]
          simp
        · rw [if_neg hl, if_neg hl]
      rw [hpop, ih h2]
      have hcond : a ≠ '-' ∨ ∃ x ∈ b :: rest, isDash x = false := by
        by_cases ha : a = '-'
        · right
          refine ⟨b, List.mem_cons_self b rest, ?_⟩
          have hb : b ≠ '-' := fun hb => h1 ⟨ha, hb⟩
          simp [isDash, hb]
        · left
          exact ha
      rw [trimTrailing_cons a (b :: rest) hcond]

/-- Claim C8: for every mDNS service instance name, the
service-name-to-hostname fallback returns cleaned ++ ".local" where cleaned
is the name lowercased with each space, apostrophe and hyphen mapped to a
dash, every other non-alphanumeric character dropped, runs of consecutive
dashes collapsed to a single dash, and leading and trailing dashes removed.
The statement holds for every alphanumeric classification isAlnum with
isAlnum NUL = false, hence in particular for the Rust std classification. -/
theorem c8_service_name_to_hostname_spec (isAlnum : Char → Bool)
    (hnul : isAlnum nulChar = false) (name : List Char) :
    service_name_to_hostname isAlnum name = specHostnameFallback isAlnum name := by
  unfold service_name_to_hostname specHostnameFallback
  rw [hostnameCleaned_eq_specCleaned isAlnum hnul]
  congr 1
  rw [(collapseDashes_spec (specCleaned isAlnum name)).2]
  rw [popTrailing_eq_trimTrailing _ (squeezeDashes_noAdj _)]
  show trimTrailingDashes (squeezeDashes (trimLeadingDashes (specCleaned isAlnum name))) = _
  rw [← trimLeading_squeeze]

/-- Witness for c8_service_name_to_hostname_spec at the ASCII alphanumeric
classification and a concrete mixed name. -/
theorem c8_service_name_to_hostname_spec_witness :
    service_name_to_hostname Char.isAlphanum ("Davids MacBook!".data)
      = specHostnameFallback Char.isAlphanum ("Davids MacBook!".data) :=
  c8_service_name_to_hostname_spec Char.isAlphanum (by decide) ("Davids MacBook!".data)

/-!  Claim C9: service_name_to_id (src-tauri/src/network/mod.rs).
The function filters the name to alphanumerics, dashes and underscores and
then lowercases the collected string.  The two std primitives are modelled
partially but exactly on the range every statement below evaluates them on:
rustIsAlphanumericM is exact on ASCII and on U+0130 / U+0307, and
rustCharLowercaseM is exact on ASCII and on U+0130, whose Unicode lowercase
mapping is the two code points U+0069 U+0307. -/

/-- LATIN CAPITAL LETTER I WITH DOT ABOVE, an alphanumeric character whose
Unicode lowercasing is two code points. -/
def capitalIWithDot : Char := Char.ofNat 0x130

/-- COMBINING DOT ABOVE, a combining mark, not alphanumeric. -/
def combiningDotAbove : Char := Char.ofNat 0x307

/-- Partial model of Rust char::is_alphanumeric: exact on the ASCII range and
on U+0130 (alphanumeric) and U+0307 (not alphanumeric); false on the
remaining non-ASCII characters (which no statement below evaluates it on). -/
def rustIsAlphanumericM (c : Char) : Bool :=
  if c.toNat < 128 then c.isAlphanum else c = capitalIWithDot

/-- Partial model of the per-character mapping of Rust str::to_lowercase:
exact on the ASCII range and on U+0130, which lowercases to the two code
points U+0069 U+0307; the identity on the remaining non-ASCII characters
(which no statement below evaluates it on). -/
def rustCharLowercaseM (c : Char) : List Char :=
  if c = capitalIWithDot then [Char.ofNat 0x69, combiningDotAbove]
  else [asciiLower c]

/-- The character class kept by the filter of service_name_to_id. -/
def serviceIdKeep (c : Char) : Bool :=
  rustIsAlphanumericM c || c = '-' || c = '_'

/-- Embedding of service_name_to_id (network/mod.rs): filter the characters
to alphanumerics, dashes and underscores, then lowercase the collected
string. -/
def service_name_to_id (name : List Char) : List Char :=
  (name.filter serviceIdKeep).flatMap rustCharLowercaseM

/-- Counterexample to claim C9 as stated: for the service name consisting of
the single character U+0130, the derivation is not idempotent, because the
Unicode lowercase mapping of U+0130 is U+0069 followed by the combining mark
U+0307, and the combining mark is not alphanumeric, so a second pass drops
it. -/
theorem c9_service_name_to_id_not_idempotent :
    service_name_to_id (service_name_to_id [capitalIWithDot])
      ≠ service_name_to_id [capitalIWithDot] := by decide

theorem ofNat_lower_keep_props (m : Nat) (h1 : 97 ≤ m) (h2 : m ≤ 122) :
    (Char.ofNat m).toNat < 128 ∧
      serviceIdKeep (Char.ofNat m) = true ∧
      rustCharLowercaseM (Char.ofNat m) = [Char.ofNat m] := by
  interval_cases m <;> decide

theorem serviceId_char_step (a : Char) (ha : a.toNat < 128)
    (hk : serviceIdKeep a = true) :
    ∀ c ∈ rustCharLowercaseM a,
      c.toNat < 128 ∧ serviceIdKeep c = true ∧ rustCharLowercaseM c = [c] := by
  intro c hc
  have hnotI : a ≠ capitalIWithDot := by
    intro h
    rw [h] at ha
    exact absurd ha (by decide)
  rw [rustCharLowercaseM, if_neg hnotI] at hc
  have hceq : c = asciiLower a := by simpa using hc
  subst hceq
  unfold asciiLower
  split
  · rename_i hAZ
    have hlo : (65 : Nat) ≤ a.toNat := by
      have := hAZ.1
      simp [Char.le_def] at this
      exact this
    have hhi : a.toNat ≤ 90 := by
      have := hAZ.2
      simp [Char.le_def] at this
      exact this
    exact ofNat_lower_keep_props (a.toNat + 32) (by omega) (by omega)
  · refine ⟨ha, hk, ?_⟩
    rename_i hAZ
    rw [rustCharLowercaseM, if_neg hnotI]
    rw [asciiLower, if_neg hAZ]

theorem flatMap_singleton_of_mem (l : List Char) (f : Char → List Char)
    (h : ∀ c ∈ l, f c = [c]) : l.flatMap f = l := by
  induction l with
  | nil => rfl
  | cons c cs ih =>
    rw [List.flatMap_cons]
    rw [h c (List.mem_cons_self c cs)]
    rw [ih (fun d hd => h d (List.mem_cons_of_mem c hd))]
    rfl

/-- Claim C9 (amended): the host-id derivation is idempotent on every service
name all of whose characters are ASCII; Rust Unicode lowercasing breaks
idempotence for names containing U+0130, as the counterexample shows. -/
theorem c9_service_name_to_id_ascii_idempotent (s : List Char)
    (h : ∀ c ∈ s, c.toNat < 128) :
    service_name_to_id (service_name_to_id s) = service_name_to_id s := by
  have key : ∀ c ∈ service_name_to_id s,
      c.toNat < 128 ∧ serviceIdKeep c = true ∧ rustCharLowercaseM c = [c] := by
    intro c hc
    unfold service_name_to_id at hc
    rw [List.mem_flatMap] at hc
    obtain ⟨a, haf, hca⟩ := hc
    have has : a ∈ s := List.mem_of_mem_filter haf
    have hka : serviceIdKeep a = true := List.of_mem_filter haf
    exact serviceId_char_step a (h a has) hka c hca
  have hfil : (service_name_to_id s).filter serviceIdKeep = service_name_to_id s :=
    List.filter_eq_self.mpr (fun c hc => (key c hc).2.1)
  have hfm : (service_name_to_id s).flatMap rustCharLowercaseM = service_name_to_id s :=
    flatMap_singleton_of_mem _ _ (fun c hc => (key c hc).2.2)
  calc service_name_to_id (service_name_to_id s)
      = ((service_name_to_id s).filter serviceIdKeep).flatMap rustCharLowercaseM := rfl
    _ = (service_name_to_id s).flatMap rustCharLowercaseM := by rw [hfil]
    _ = service_name_to_id s := hfm

/-- Witness for c9_service_name_to_id_ascii_idempotent at a concrete ASCII
service name. -/
theorem c9_service_name_to_id_ascii_idempotent_witness :
    service_name_to_id (service_name_to_id ("My NAS-Server_1!".data))
      = service_name_to_id ("My NAS-Server_1!".data) :=
  c9_service_name_to_id_ascii_idempotent ("My NAS-Server_1!".data) (by decide)

/-!  Claim C1: sorting by Name ascending.  The sort engine sort_entries with
its SortColumn / SortOrder arguments is code of this repository that is not
under src: sorting_test.rs, the file_system module re-export and the command
layer reference it, but operations.rs in src predates it (its inline sorts
are a plain lowercase comparison).  The definitions below are therefore
modelled from the spec, which the tests in sorting_test.rs corroborate. -/

/-- Value of a run of ASCII digit characters, read as a decimal integer. -/
def digitsVal (l : List Char) : Nat :=
  l.foldl (fun n c => n * 10 + (c.toNat - 48)) 0

/-- Modelled from the spec: the case-insensitive natural-numeric comparison
core of the missing sort engine, structurally recursive on a fuel count so
that it evaluates inside the kernel.  At two digit positions, the maximal
runs of ASCII digits compare as integers and the comparison continues after
both runs; at every other position the lowercased characters compare.  Each
step consumes at least one character from each list, so a fuel of the summed
lengths always suffices and the fuel-exhausted .eq arm is never reached from
natCmpCore. -/
def natCmpFuel : Nat → List Char → List Char → Ordering
  | 0, _, _ => .eq
  | _ + 1, [], [] => .eq
  | _ + 1, [], _ :: _ => .lt
  | _ + 1, _ :: _, [] => .gt
  | fuel + 1, a :: as, b :: bs =>
    if a.isDigit ∧ b.isDigit then
      Ordering.then
        (compare (digitsVal ((a :: as).takeWhile Char.isDigit))
          (digitsVal ((b :: bs).takeWhile Char.isDigit)))
        (natCmpFuel fuel ((a :: as).dropWhile Char.isDigit) ((b :: bs).dropWhile Char.isDigit))
    else
      Ordering.then (compare a.toLower b.toLower) (natCmpFuel fuel as bs)

/-- Modelled from the spec: the natural-numeric comparison at its always
sufficient fuel. -/
def natCmpCore (a b : List Char) : Ordering :=
  natCmpFuel (a.length + b.length) a b

/-- Modelled from the spec: byte-order comparison, the deterministic
tie-break of the name comparator.  Comparing Unicode scalar values agrees
with comparing UTF-8 bytes. -/
def bytesCmp : List Char → List Char → Ordering
  | [], [] => .eq
  | [], _ :: _ => .lt
  | _ :: _, [] => .gt
  | a :: as, b :: bs => Ordering.then (compare a b) (bytesCmp as bs)

/-- Modelled from the spec: the full Name comparator, natural-numeric
case-insensitive with ties falling through to byte order. -/
def naturalNameCmp (a b : String) : Ordering :=
  Ordering.then (natCmpCore a.data b.data) (bytesCmp a.data b.data)

/-- Modelled from the spec: the sort column selector of the missing sort
engine (only the Name column, the one this claim exercises, is given a
comparator below). -/
inductive SortColumn
  | Name
  | Extension
  | Size
  | Modified
  | Created
  deriving DecidableEq, Repr

/-- Modelled from the spec: the sort order selector of the missing sort
engine. -/
inductive SortOrder
  | Ascending
  | Descending
  deriving DecidableEq, Repr

/-- Modelled from the spec: the Name-column comparator of sort_entries.
Directories group before files regardless of order; within a group the
natural comparator applies, inverted for descending order. -/
def nameColumnCmp (order : SortOrder) (a b : FileEntry) : Ordering :=
  match a.is_directory, b.is_directory with
  | true, false => .lt
  | false, true => .gt
  | _, _ =>
    match order with
    | .Ascending => naturalNameCmp a.name b.name
    | .Descending => (naturalNameCmp a.name b.name).swap

/-- Modelled from the spec: sort_entries restricted to the Name column, as a
stable sort by the Name-column comparator. -/
def sort_entries (entries : List FileEntry) (order : SortOrder) : List FileEntry :=
  List.insertionSort (fun a b => nameColumnCmp order a b ≠ .gt) entries

/-- Builder for a plain file entry carrying only a name, as the sorting tests
construct them. -/
def mkNamedFile (n : String) : FileEntry :=
  ⟨n, "/" ++ n, false, false, some 100, none, none, none, none, 420, "u", "g", "file", true⟩

/-- Claim C1: sorting by Name ascending compares two directories and two
files by the case-insensitive natural-numeric comparator, under which
"file2" sorts before "file10"; the given example list of file names sorts
into the claimed order; and names equal under the natural comparison fall
through to byte order.  The sort engine is modelled from the spec because
sort_entries is missing from src. -/
theorem c1_sort_entries_natural_name :
    ((sort_entries
        [mkNamedFile "img_10.jpg", mkNamedFile "img_2.jpg",
         mkNamedFile "img_1.jpg", mkNamedFile "img_20.jpg"] .Ascending).map
          FileEntry.name
      = ["img_1.jpg", "img_2.jpg", "img_10.jpg", "img_20.jpg"])
    ∧ naturalNameCmp "file2" "file10" = .lt
    ∧ (∀ a b : FileEntry, a.is_directory = b.is_directory →
        nameColumnCmp .Ascending a b = naturalNameCmp a.name b.name)
    ∧ natCmpCore "Img_2".data "img_2".data = .eq
    ∧ naturalNameCmp "Img_2" "img_2" = .lt := by
  refine ⟨by decide, by decide, ?_, by decide, by decide⟩
  intro a b h
  cases ha : a.is_directory <;> cases hb : b.is_directory <;> rw [ha, hb] at h
  · simp [nameColumnCmp, ha, hb]
  · exact absurd h (by decide)
  · exact absurd h (by decide)
  · simp [nameColumnCmp, ha, hb]

/-- Witness for the quantified conjunct of c1_sort_entries_natural_name at
two concrete file entries. -/
theorem c1_sort_entries_natural_name_witness :
    nameColumnCmp .Ascending (mkNamedFile "a2") (mkNamedFile "a10")
      = naturalNameCmp "a2" "a10" :=
  c1_sort_entries_natural_name.2.2.1 (mkNamedFile "a2") (mkNamedFile "a10") rfl

/-!  Claim C5: list_directory_core (src-tauri/src/file_system/operations.rs).
The directory walk is embedded over a snapshot of raw directory entries: one
DirEnt per child, carrying the dirent data and the outcome of its metadata
call (none models the Err branch).  The uid and gid resolvers (process-wide
caches around uzers lookups) are abstracted as functions. -/

/-- Result of a successful Rust fs::Metadata call, with the fields
list_directory_core reads. -/
structure RawMeta where
  isDir : Bool
  isFile : Bool
  len : Nat
  modified : Option Nat
  created : Option Nat
  mode : Nat
  uid : Nat
  gid : Nat
  deriving DecidableEq, Repr

/-- One child of the directory as list_directory_core sees it: name and path
from the dirent, the symlink flag from the file type, the followed-target
directory probe (false for non-symlinks and broken symlinks, as in the
unwrap_or in the source), and the outcome of the metadata call. -/
structure DirEnt where
  name : String
  path : String
  isSymlink : Bool
  targetIsDir : Bool
  metadata : Option RawMeta
  deriving DecidableEq, Repr

/-- Embedding of splitting a file name at its last dot: the part before and
after the last dot, or none when the name holds no dot. -/
def splitLastDot : List Char → Option (List Char × List Char)
  | [] => none
  | c :: cs =>
    match splitLastDot cs with
    | some pr => some (c :: pr.1, pr.2)
    | none => if c = '.' then some ([], cs) else none

/-- Embedding of Rust Path::extension for a bare file name: none for the
special names and for names whose only dot is the leading one; otherwise the
part after the last dot. -/
def extensionOf (name : String) : Option String :=
  if name = "." ∨ name = ".." then none
  else
    match splitLastDot name.data with
    | none => none
    | some pr => if pr.1 = [] then none else some (String.mk pr.2)

/-- Embedding of get_icon_id (operations.rs).  Extension lowercasing is
modelled with the ASCII lowercaser; the claims below never inspect a
non-ASCII extension. -/
def get_icon_id (isDir isSymlink : Bool) (name : String) : String :=
  if isSymlink then
    if isDir then "symlink-dir" else "symlink-file"
  else if isDir then "dir"
  else
    match extensionOf name with
    | some ext => "ext:" ++ ext.toLower
    | none => "file"

/-- Embedding of the per-child entry construction of list_directory_core:
the Ok branch builds a full entry with extended_metadata_loaded false, the
Err branch builds the minimal entry with extended_metadata_loaded true. -/
def entryOfDirEnt (resolveOwner resolveGroup : Nat → String) (d : DirEnt) : FileEntry :=
  match d.metadata with
  | some m =>
    { name := d.name
      path := d.path
      is_directory := m.isDir || d.targetIsDir
      is_symlink := d.isSymlink
      size := if m.isFile then some m.len else none
      modified_at := m.modified
      created_at := m.created
      added_at := none
      opened_at := none
      permissions := m.mode
      owner := resolveOwner m.uid
      group := resolveGroup m.gid
      icon_id := get_icon_id (m.isDir || d.targetIsDir) d.isSymlink d.name
      extended_metadata_loaded := false }
  | none =>
    { name := d.name
      path := d.path
      is_directory := false
      is_symlink := d.isSymlink
      size := none
      modified_at := none
      created_at := none
      added_at := none
      opened_at := none
      permissions := 0
      owner := ""
      group := ""
      icon_id := if d.isSymlink then "symlink-broken" else "file"
      extended_metadata_loaded := true }

/-- Embedding of the inline sort of list_directory_core: directories first,
then the lowercased names compare; realized as a stable sort like Rust
sort_by.  Lowercasing is modelled per ASCII character; only permutation
facts about this sort are used below. -/
def coreCmp (a b : FileEntry) : Ordering :=
  match a.is_directory, b.is_directory with
  | true, false => .lt
  | false, true => .gt
  | _, _ => compare a.name.toLower b.name.toLower

/-- Embedding of list_directory_core over a directory snapshot: one entry
per child, then the inline directories-first sort. -/
def list_directory_core (resolveOwner resolveGroup : Nat → String)
    (dirents : List DirEnt) : List FileEntry :=
  List.insertionSort (fun a b => coreCmp a b ≠ .gt)
    (dirents.map (entryOfDirEnt resolveOwner resolveGroup))

/-- Counterexample to claim C5 as stated: for a directory with one child
whose metadata call fails, the single emitted entry has
extended_metadata_loaded = true, not false. -/
theorem c5_core_read_flag_counterexample :
    ((list_directory_core (fun _ => "u") (fun _ => "g")
        [⟨"broken", "/d/broken", false, false, none⟩]).map
          FileEntry.extended_metadata_loaded = [true])
    ∧ ¬ (∀ e ∈ list_directory_core (fun _ => "u") (fun _ => "g")
          [⟨"broken", "/d/broken", false, false, none⟩],
          e.extended_metadata_loaded = false) := by
  constructor
  · decide
  · intro h
    have := h (entryOfDirEnt (fun _ => "u") (fun _ => "g")
        ⟨"broken", "/d/broken", false, false, none⟩) (by decide)
    exact absurd this (by decide)

/-- Claim C5 (amended): every entry emitted by the core directory read for a
child whose metadata call succeeds has extended_metadata_loaded = false, and
an entry whose metadata call fails is still emitted (not dropped) as a
minimal entry with permissions zero, empty owner and group, no size, icon_id
symlink-broken if the child was a symlink and file otherwise — with
extended_metadata_loaded = true. -/
theorem c5_core_read_flag_and_minimal (resolveOwner resolveGroup : Nat → String)
    (dirents : List DirEnt) (d : DirEnt) (hd : d ∈ dirents) :
    entryOfDirEnt resolveOwner resolveGroup d
        ∈ list_directory_core resolveOwner resolveGroup dirents
    ∧ (d.metadata = none →
        (entryOfDirEnt resolveOwner resolveGroup d).permissions = 0
        ∧ (entryOfDirEnt resolveOwner resolveGroup d).owner = ""
        ∧ (entryOfDirEnt resolveOwner resolveGroup d).group = ""
        ∧ (entryOfDirEnt resolveOwner resolveGroup d).size = none
        ∧ (entryOfDirEnt resolveOwner resolveGroup d).icon_id
            = (if d.isSymlink then "symlink-broken" else "file")
        ∧ (entryOfDirEnt resolveOwner resolveGroup d).extended_metadata_loaded = true)
    ∧ (∀ m, d.metadata = some m →
        (entryOfDirEnt resolveOwner resolveGroup d).extended_metadata_loaded = false) := by
  refine ⟨?_, ?_, ?_⟩
  · unfold list_directory_core
    rw [List.mem_insertionSort]
    exact List.mem_map_of_mem _ hd
  · intro h
    simp [entryOfDirEnt, h]
  · intro m h
    simp [entryOfDirEnt, h]

/-- Witness for c5_core_read_flag_and_minimal at a concrete two-child
directory holding one healthy child and one broken symlink. -/
theorem c5_core_read_flag_and_minimal_witness :
    entryOfDirEnt (fun _ => "u") (fun _ => "g")
        ⟨"link", "/d/link", true, false, none⟩
      ∈ list_directory_core (fun _ => "u") (fun _ => "g")
        [⟨"a.txt", "/d/a.txt", false, false,
          some ⟨false, true, 7, some 5, some 4, 420, 1, 2⟩⟩,
         ⟨"link", "/d/link", true, false, none⟩] :=
  (c5_core_read_flag_and_minimal (fun _ => "u") (fun _ => "g")
    [⟨"a.txt", "/d/a.txt", false, false, some ⟨false, true, 7, some 5, some 4, 420, 1, 2⟩⟩,
     ⟨"link", "/d/link", true, false, none⟩]
    ⟨"link", "/d/link", true, false, none⟩ (by decide)).1

/-!  Claim C4: compute_diff and is_entry_modified
     (src-tauri/src/file_system/watcher.rs). -/

/-- Embedding of the Rust struct DiffChange (watcher.rs): a change tag among
add, modify and remove, and the carried entry. -/
structure DiffChange where
  change_type : String
  entry : FileEntry
  deriving DecidableEq, Repr

/-- Embedding of is_entry_modified (watcher.rs): size, modified-at,
permission bits, is-directory or is-symlink changed. -/
def is_entry_modified (oldEntry newEntry : FileEntry) : Bool :=
  oldEntry.size ≠ newEntry.size
    || oldEntry.modified_at ≠ newEntry.modified_at
    || oldEntry.permissions ≠ newEntry.permissions
    || oldEntry.is_directory ≠ newEntry.is_directory
    || oldEntry.is_symlink ≠ newEntry.is_symlink

/-- Lookup of the HashMap that compute_diff builds from an entry vector,
keyed by path: a later insert overwrites an earlier one, so the lookup finds
the last entry carrying the path. -/
def pathLookup (l : List FileEntry) (p : String) : Option FileEntry :=
  l.reverse.find? (fun e => e.path = p)

/-- The first pass of compute_diff, for one new entry: an add when its path
is absent from the old map, a modify when the path is present and a compared
field changed, nothing otherwise. -/
def diffAddModify (oldEntries : List FileEntry) (ne : FileEntry) : Option DiffChange :=
  match pathLookup oldEntries ne.path with
  | none => some ⟨"add", ne⟩
  | some oe => if is_entry_modified oe ne then some ⟨"modify", ne⟩ else none

/-- The second pass of compute_diff, for one old entry: a remove when its
path is absent from the new map. -/
def diffRemove (newEntries : List FileEntry) (oe : FileEntry) : Option DiffChange :=
  if (pathLookup newEntries oe.path).isSome then none else some ⟨"remove", oe⟩

/-- Embedding of compute_diff (watcher.rs): the first pass over the new
vector emits adds and modifications, the second pass over the old vector
emits removals. -/
def compute_diff (oldEntries newEntries : List FileEntry) : List DiffChange :=
  newEntries.filterMap (diffAddModify oldEntries)
    ++ oldEntries.filterMap (diffRemove newEntries)

/-- Application of a single diff change to a path-keyed state: a remove
erases its path, an add or modify stores the carried entry at its path. -/
def applyDiffChange (st : String → Option FileEntry) (c : DiffChange) :
    String → Option FileEntry :=
  fun p =>
    if p = c.entry.path then
      if c.change_type = "remove" then none else some c.entry
    else st p

/-- A concrete entry for the C4 counterexample. -/
def c4Old : FileEntry :=
  ⟨"a.txt", "/t/a.txt", false, false, some 100, some 10, some 1, none, none,
    420, "u", "g", "ext:txt", true⟩

/-- The same entry with only the created-at field changed, a field
is_entry_modified does not compare. -/
def c4New : FileEntry :=
  ⟨"a.txt", "/t/a.txt", false, false, some 100, some 10, some 2, none, none,
    420, "u", "g", "ext:txt", true⟩

/-- Counterexample to claim C4 as stated: for the path-unique vectors
[c4Old] and [c4New], which differ only in the created-at field, the computed
diff is empty, so applying it to the old state leaves the old entry in place
and does not yield the new state. -/
theorem c4_compute_diff_counterexample :
    compute_diff [c4Old] [c4New] = []
    ∧ ((compute_diff [c4Old] [c4New]).foldl applyDiffChange
        (pathLookup [c4Old])) "/t/a.txt" = some c4Old
    ∧ pathLookup [c4New] "/t/a.txt" = some c4New
    ∧ c4Old ≠ c4New := by
  refine ⟨by decide, by decide, by decide, by decide⟩

theorem pathLookup_eq_none_iff (l : List FileEntry) (p : String) :
    pathLookup l p = none ↔ ∀ e ∈ l, e.path ≠ p := by
  unfold pathLookup
  rw [List.find?_eq_none]
  constructor
  · intro h e he
    have := h e (List.mem_reverse.mpr he)
    simpa using this
  · intro h e he
    have := h e (List.mem_reverse.mp he)
    simpa using this

theorem find?_eq_some_of_unique {α : Type} (p : α → Bool) (l : List α)
    (hu : ∀ a ∈ l, ∀ b ∈ l, p a = true → p b = true → a = b) (e : α) :
    l.find? p = some e ↔ e ∈ l ∧ p e = true := by
  constructor
  · intro h
    exact ⟨List.mem_of_find?_eq_some h, List.find?_some h⟩
  · rintro ⟨hm, hp⟩
    cases hf : l.find? p with
    | none => exact absurd hp (List.find?_eq_none.mp hf e hm)
    | some a =>
      have : a = e :=
        hu a (List.mem_of_find?_eq_some hf) e hm (List.find?_some hf) hp
      rw [this]

theorem pairwise_path_of_pairwise (l : List FileEntry)
    (hl : l.Pairwise (fun a b => a.path ≠ b.path))
    (a : FileEntry) (ha : a ∈ l) (b : FileEntry) (hb : b ∈ l)
    (hpath : a.path = b.path) : a = b := by
  by_contra hne
  have hsym : Symmetric (fun a b : FileEntry => a.path ≠ b.path) :=
    fun x y h => fun he => h he.symm
  exact (List.Pairwise.forall hsym hl ha hb hne) hpath

theorem pathLookup_eq_some_iff (l : List FileEntry)
    (hl : l.Pairwise (fun a b => a.path ≠ b.path)) (p : String) (e : FileEntry) :
    pathLookup l p = some e ↔ e ∈ l ∧ e.path = p := by
  unfold pathLookup
  rw [find?_eq_some_of_unique]
  · simp
  · intro a ha b hb hpa hpb
    have hpa' : a.path = p := by simpa using hpa
    have hpb' : b.path = p := by simpa using hpb
    exact pairwise_path_of_pairwise l hl a (List.mem_reverse.mp ha)
      b (List.mem_reverse.mp hb) (hpa'.trans hpb'.symm)

theorem diffAddModify_eq_some_iff (oldEntries : List FileEntry) (ne : FileEntry)
    (c : DiffChange) :
    diffAddModify oldEntries ne = some c ↔
      (pathLookup oldEntries ne.path = none ∧ c = ⟨"add", ne⟩)
      ∨ (∃ oe, pathLookup oldEntries ne.path = some oe
          ∧ is_entry_modified oe ne = true ∧ c = ⟨"modify", ne⟩) := by
  unfold diffAddModify
  cases h : pathLookup oldEntries ne.path with
  | none =>
    constructor
    · intro hc
      exact Or.inl ⟨rfl, (Option.some.injEq _ _ ▸ hc).symm⟩
    · rintro (⟨_, hc⟩ | ⟨oe, hoe, _⟩)
      · rw [hc]
      · exact Option.noConfusion hoe
  | some oe =>
    change (if is_entry_modified oe ne = true
        then some (DiffChange.mk "modify" ne) else none) = some c ↔ _
    by_cases hm : is_entry_modified oe ne = true
    · rw [if_pos hm]
      constructor
      · intro hc
        exact Or.inr ⟨oe, rfl, hm, (Option.some.injEq _ _ ▸ hc).symm⟩
      · rintro (⟨hn, _⟩ | ⟨oe', hoe', _, hc⟩)
        · exact Option.noConfusion hn
        · rw [hc]
    · rw [if_neg hm]
      constructor
      · intro hc
        exact Option.noConfusion hc
      · rintro (⟨hn, _⟩ | ⟨oe', hoe', hm', _⟩)
        · exact Option.noConfusion hn
        · rw [Option.some.injEq] at hoe'
          rw [← hoe'] at hm'
          exact absurd hm' hm

theorem diffRemove_eq_some_iff (newEntries : List FileEntry) (oe : FileEntry)
    (c : DiffChange) :
    diffRemove newEntries oe = some c ↔
      pathLookup newEntries oe.path = none ∧ c = ⟨"remove", oe⟩ := by
  unfold diffRemove
  by_cases hs : (pathLookup newEntries oe.path).isSome = true
  · rw [if_pos hs]
    constructor
    · intro h
      exact absurd h (by simp)
    · rintro ⟨hn, _⟩
      rw [hn] at hs
      exact absurd hs (by simp)
  · rw [if_neg hs]
    have hn : pathLookup newEntries oe.path = none :=
      Option.not_isSome_iff_eq_none.mp (by simpa using hs)
    simp [hn, eq_comm]

theorem mem_compute_diff (oldEntries newEntries : List FileEntry) (c : DiffChange) :
    c ∈ compute_diff oldEntries newEntries ↔
      (∃ ne ∈ newEntries, diffAddModify oldEntries ne = some c)
      ∨ (∃ oe ∈ oldEntries, diffRemove newEntries oe = some c) := by
  unfold compute_diff
  simp [List.mem_append, List.mem_filterMap]

theorem pairwise_path_filterMap (f : FileEntry → Option DiffChange) (l : List FileEntry)
    (hf : ∀ e c, f e = some c → c.entry.path = e.path)
    (hl : l.Pairwise (fun a b => a.path ≠ b.path)) :
    (l.filterMap f).Pairwise (fun c1 c2 => c1.entry.path ≠ c2.entry.path) := by
  induction l with
  | nil => simp
  | cons e es ih =>
    rw [List.filterMap_cons]
    rcases List.pairwise_cons.mp hl with ⟨hhead, htail⟩
    cases hfe : f e with
    | none => exact ih htail
    | some c =>
      refine List.pairwise_cons.mpr ⟨?_, ih htail⟩
      intro c' hc'
      rcases List.mem_filterMap.mp hc' with ⟨e', he', hfe'⟩
      rw [hf e c hfe, hf e' c' hfe']
      exact hhead e' he'

theorem diffAddModify_path (oldEntries : List FileEntry) (e : FileEntry)
    (c : DiffChange) (h : diffAddModify oldEntries e = some c) :
    c.entry.path = e.path := by
  rcases (diffAddModify_eq_some_iff oldEntries e c).mp h with ⟨_, hc⟩ | ⟨_, _, _, hc⟩ <;>
    rw [hc]

theorem diffRemove_path (newEntries : List FileEntry) (e : FileEntry)
    (c : DiffChange) (h : diffRemove newEntries e = some c) :
    c.entry.path = e.path := by
  rcases (diffRemove_eq_some_iff newEntries e c).mp h with ⟨_, hc⟩
  rw [hc]

theorem compute_diff_pairwise (oldEntries newEntries : List FileEntry)
    (hOld : oldEntries.Pairwise (fun a b => a.path ≠ b.path))
    (hNew : newEntries.Pairwise (fun a b => a.path ≠ b.path)) :
    (compute_diff oldEntries newEntries).Pairwise
      (fun c1 c2 => c1.entry.path ≠ c2.entry.path) := by
  unfold compute_diff
  rw [List.pairwise_append]
  refine ⟨pairwise_path_filterMap _ _ (diffAddModify_path oldEntries) hNew,
    pairwise_path_filterMap _ _ (diffRemove_path newEntries) hOld, ?_⟩
  intro c1 h1 c2 h2
  rcases List.mem_filterMap.mp h1 with ⟨e, he, hfe⟩
  rcases List.mem_filterMap.mp h2 with ⟨o, ho, hfo⟩
  rcases (diffRemove_eq_some_iff newEntries o c2).mp hfo with ⟨hnone, hc2⟩
  have h1p : c1.entry.path = e.path := diffAddModify_path oldEntries e c1 hfe
  have h2p : c2.entry.path = o.path := diffRemove_path newEntries o c2 hfo
  rw [h1p, h2p]
  intro heq
  exact (pathLookup_eq_none_iff newEntries o.path).mp hnone e he heq

theorem foldl_applyDiffChange (cs : List DiffChange)
    (st : String → Option FileEntry) (p : String) :
    (cs.foldl applyDiffChange st) p =
      match cs.reverse.find? (fun c => c.entry.path = p) with
      | none => st p
      | some c => if c.change_type = "remove" then none else some c.entry := by
  induction cs generalizing st with
  | nil => rfl
  | cons c cs ih =>
    rw [List.foldl_cons, ih, List.reverse_cons, List.find?_append]
    cases hf : cs.reverse.find? (fun c => c.entry.path = p) with
    | some a => rfl
    | none =>
      rw [Option.none_or]
      by_cases hp : c.entry.path = p
      · have : List.find? (fun c => decide (c.entry.path = p)) [c] = some c := by
          rw [List.find?_cons_of_pos]
          simp [hp]
        rw [this]
        unfold applyDiffChange
        rw [if_pos hp.symm]
      · have : List.find? (fun c => decide (c.entry.path = p)) [c] = none := by
          rw [List.find?_cons_of_neg]
          · rfl
          · simp [hp]
        rw [this]
        unfold applyDiffChange
        rw [if_neg (fun h => hp h.symm)]

theorem pathLookup_some_mem_path (l : List FileEntry) (p : String) (e : FileEntry)
    (h : pathLookup l p = some e) : e ∈ l ∧ e.path = p := by
  unfold pathLookup at h
  exact ⟨List.mem_reverse.mp (List.mem_of_find?_eq_some h),
    by simpa using List.find?_some h⟩

theorem changes_find?_iff (cs : List DiffChange)
    (hpw : cs.Pairwise (fun c1 c2 => c1.entry.path ≠ c2.entry.path))
    (p : String) (c : DiffChange) :
    cs.reverse.find? (fun c' => c'.entry.path = p) = some c ↔
      c ∈ cs ∧ c.entry.path = p := by
  rw [find?_eq_some_of_unique]
  · simp
  · intro a ha b hb hpa hpb
    have hpa' : a.entry.path = p := by simpa using hpa
    have hpb' : b.entry.path = p := by simpa using hpb
    by_contra hne
    have hsym : Symmetric (fun c1 c2 : DiffChange => c1.entry.path ≠ c2.entry.path) :=
      fun x y h he => h he.symm
    exact (List.Pairwise.forall hsym hpw (List.mem_reverse.mp ha)
      (List.mem_reverse.mp hb) hne) (hpa'.trans hpb'.symm)

theorem c4aux_mem_shapes (oldEntries newEntries : List FileEntry) (c : DiffChange)
    (h : c ∈ compute_diff oldEntries newEntries) :
    (∃ ne ∈ newEntries, c = ⟨"add", ne⟩ ∧ pathLookup oldEntries ne.path = none)
    ∨ (∃ ne ∈ newEntries, ∃ oe, c = ⟨"modify", ne⟩
        ∧ pathLookup oldEntries ne.path = some oe ∧ is_entry_modified oe ne = true)
    ∨ (∃ oe ∈ oldEntries, c = ⟨"remove", oe⟩
        ∧ pathLookup newEntries oe.path = none) := by
  rcases (mem_compute_diff _ _ c).mp h with ⟨ne, hne, hf⟩ | ⟨oe, hoe, hf⟩
  · rcases (diffAddModify_eq_some_iff _ _ _).mp hf with ⟨hn, hc⟩ | ⟨oe, hl, hm, hc⟩
    · exact Or.inl ⟨ne, hne, hc, hn⟩
    · exact Or.inr (Or.inl ⟨ne, hne, oe, hc, hl, hm⟩)
  · rcases (diffRemove_eq_some_iff _ _ _).mp hf with ⟨hn, hc⟩
    exact Or.inr (Or.inr ⟨oe, hoe, hc, hn⟩)

theorem c4aux_add_char (oldEntries newEntries : List FileEntry) (p : String) :
    (∃ c ∈ compute_diff oldEntries newEntries,
        c.change_type = "add" ∧ c.entry.path = p)
      ↔ ((∃ e ∈ newEntries, e.path = p) ∧ ¬ ∃ e ∈ oldEntries, e.path = p) := by
  constructor
  · rintro ⟨c, hc, htype, hpath⟩
    rcases c4aux_mem_shapes _ _ c hc with
      ⟨ne, hne, hceq, hn⟩ | ⟨ne, hne, oe, hceq, _, _⟩ | ⟨oe, hoe, hceq, _⟩
    · rw [hceq] at hpath
      refine ⟨⟨ne, hne, hpath⟩, ?_⟩
      rintro ⟨e, he, hep⟩
      exact (pathLookup_eq_none_iff oldEntries ne.path).mp hn e he
        (hep.trans hpath.symm)
    · rw [hceq] at htype
      simp at htype
    · rw [hceq] at htype
      simp at htype
  · rintro ⟨⟨e, he, hep⟩, hnot⟩
    have hn : pathLookup oldEntries e.path = none :=
      (pathLookup_eq_none_iff oldEntries e.path).mpr
        (fun o ho hop => hnot ⟨o, ho, hop.trans hep⟩)
    refine ⟨⟨"add", e⟩, ?_, rfl, hep⟩
    exact (mem_compute_diff _ _ _).mpr
      (Or.inl ⟨e, he, (diffAddModify_eq_some_iff _ _ _).mpr (Or.inl ⟨hn, rfl⟩)⟩)

theorem c4aux_remove_char (oldEntries newEntries : List FileEntry) (p : String) :
    (∃ c ∈ compute_diff oldEntries newEntries,
        c.change_type = "remove" ∧ c.entry.path = p)
      ↔ ((∃ e ∈ oldEntries, e.path = p) ∧ ¬ ∃ e ∈ newEntries, e.path = p) := by
  constructor
  · rintro ⟨c, hc, htype, hpath⟩
    rcases c4aux_mem_shapes _ _ c hc with
      ⟨ne, hne, hceq, _⟩ | ⟨ne, hne, oe, hceq, _, _⟩ | ⟨oe, hoe, hceq, hn⟩
    · rw [hceq] at htype
      simp at htype
    · rw [hceq] at htype
      simp at htype
    · rw [hceq] at hpath
      refine ⟨⟨oe, hoe, hpath⟩, ?_⟩
      rintro ⟨e, he, hep⟩
      exact (pathLookup_eq_none_iff newEntries oe.path).mp hn e he
        (hep.trans hpath.symm)
  · rintro ⟨⟨e, he, hep⟩, hnot⟩
    have hn : pathLookup newEntries e.path = none :=
      (pathLookup_eq_none_iff newEntries e.path).mpr
        (fun o ho hop => hnot ⟨o, ho, hop.trans hep⟩)
    refine ⟨⟨"remove", e⟩, ?_, rfl, hep⟩
    exact (mem_compute_diff _ _ _).mpr
      (Or.inr ⟨e, he, (diffRemove_eq_some_iff _ _ _).mpr ⟨hn, rfl⟩⟩)

theorem c4aux_modify_char (oldEntries newEntries : List FileEntry)
    (hOld : oldEntries.Pairwise (fun a b => a.path ≠ b.path)) (p : String) :
    (∃ c ∈ compute_diff oldEntries newEntries,
        c.change_type = "modify" ∧ c.entry.path = p)
      ↔ (∃ oe ∈ oldEntries, ∃ ne ∈ newEntries,
          oe.path = p ∧ ne.path = p ∧ is_entry_modified oe ne = true) := by
  constructor
  · rintro ⟨c, hc, htype, hpath⟩
    rcases c4aux_mem_shapes _ _ c hc with
      ⟨ne, hne, hceq, _⟩ | ⟨ne, hne, oe, hceq, hl, hm⟩ | ⟨oe, hoe, hceq, _⟩
    · rw [hceq] at htype
      simp at htype
    · rw [hceq] at hpath
      rcases pathLookup_some_mem_path oldEntries ne.path oe hl with ⟨hoe_mem, hoe_path⟩
      exact ⟨oe, hoe_mem, ne, hne, hoe_path.trans hpath, hpath, hm⟩
    · rw [hceq] at htype
      simp at htype
  · rintro ⟨oe, hoe, ne, hne, hoep, hnep, hm⟩
    have hl : pathLookup oldEntries ne.path = some oe :=
      (pathLookup_eq_some_iff oldEntries hOld ne.path oe).mpr
        ⟨hoe, hoep.trans hnep.symm⟩
    refine ⟨⟨"modify", ne⟩, ?_, rfl, hnep⟩
    exact (mem_compute_diff _ _ _).mpr
      (Or.inl ⟨ne, hne, (diffAddModify_eq_some_iff _ _ _).mpr
        (Or.inr ⟨oe, hl, hm, rfl⟩)⟩)

theorem c4aux_application (oldEntries newEntries : List FileEntry)
    (hOld : oldEntries.Pairwise (fun a b => a.path ≠ b.path))
    (hNew : newEntries.Pairwise (fun a b => a.path ≠ b.path))
    (hAgree : ∀ oe ∈ oldEntries, ∀ ne ∈ newEntries,
      oe.path = ne.path → is_entry_modified oe ne = false → oe = ne)
    (cs : List DiffChange)
    (hperm : List.Perm cs (compute_diff oldEntries newEntries)) (p : String) :
    (cs.foldl applyDiffChange (pathLookup oldEntries)) p = pathLookup newEntries p := by
  have hpwd := compute_diff_pairwise oldEntries newEntries hOld hNew
  have hpw : cs.Pairwise (fun c1 c2 => c1.entry.path ≠ c2.entry.path) :=
    (hperm.pairwise_iff (fun hxy he => hxy he.symm)).mpr hpwd
  rw [foldl_applyDiffChange]
  cases hf : cs.reverse.find? (fun c => c.entry.path = p) with
  | some c =>
    rcases (changes_find?_iff cs hpw p c).mp hf with ⟨hcs, hcp⟩
    have hcd : c ∈ compute_diff oldEntries newEntries := hperm.mem_iff.mp hcs
    rcases c4aux_mem_shapes _ _ c hcd with
      ⟨ne, hne, hceq, _⟩ | ⟨ne, hne, oe, hceq, _, _⟩ | ⟨oe, hoe, hceq, hn⟩
    · subst hceq
      show (if ("add" : String) = "remove" then none else some ne)
          = pathLookup newEntries p
      rw [if_neg (by decide)]
      exact ((pathLookup_eq_some_iff newEntries hNew p ne).mpr ⟨hne, hcp⟩).symm
    · subst hceq
      show (if ("modify" : String) = "remove" then none else some ne)
          = pathLookup newEntries p
      rw [if_neg (by decide)]
      exact ((pathLookup_eq_some_iff newEntries hNew p ne).mpr ⟨hne, hcp⟩).symm
    · subst hceq
      show (if ("remove" : String) = "remove" then none else some oe)
          = pathLookup newEntries p
      rw [if_pos rfl]
      have hend : pathLookup newEntries p = none := by
        rw [← hcp]
        exact hn
      rw [hend]
  | none =>
    show pathLookup oldEntries p = pathLookup newEntries p
    have hnochange : ∀ c ∈ compute_diff oldEntries newEntries, c.entry.path ≠ p := by
      intro c hcd
      have hcs : c ∈ cs := hperm.mem_iff.mpr hcd
      have := List.find?_eq_none.mp hf c (List.mem_reverse.mpr hcs)
      simpa using this
    cases hol : pathLookup oldEntries p with
    | some oe =>
      rcases pathLookup_some_mem_path oldEntries p oe hol with ⟨hoe_mem, hoe_path⟩
      by_cases hs : (pathLookup newEntries oe.path).isSome = true
      · rcases Option.isSome_iff_exists.mp hs with ⟨ne, hne⟩
        rcases pathLookup_some_mem_path newEntries oe.path ne hne with ⟨hne_mem, hne_path⟩
        by_cases hm : is_entry_modified oe ne = true
        · exfalso
          have hl : pathLookup oldEntries ne.path = some oe := by
            rw [hne_path, hoe_path]
            exact hol
          have hmem : (⟨"modify", ne⟩ : DiffChange) ∈ compute_diff oldEntries newEntries :=
            (mem_compute_diff _ _ _).mpr
              (Or.inl ⟨ne, hne_mem, (diffAddModify_eq_some_iff _ _ _).mpr
                (Or.inr ⟨oe, hl, hm, rfl⟩)⟩)
          exact hnochange _ hmem (hne_path.trans hoe_path)
        · have heq : oe = ne :=
            hAgree oe hoe_mem ne hne_mem hne_path.symm (by simpa using hm)
          rw [heq, ← hoe_path, hne]
      · exfalso
        have hn : pathLookup newEntries oe.path = none :=
          Option.not_isSome_iff_eq_none.mp (by simpa using hs)
        have hmem : (⟨"remove", oe⟩ : DiffChange) ∈ compute_diff oldEntries newEntries :=
          (mem_compute_diff _ _ _).mpr
            (Or.inr ⟨oe, hoe_mem, (diffRemove_eq_some_iff _ _ _).mpr ⟨hn, rfl⟩⟩)
        exact hnochange _ hmem hoe_path
    | none =>
      cases hnl : pathLookup newEntries p with
      | none => rfl
      | some ne =>
        exfalso
        rcases pathLookup_some_mem_path newEntries p ne hnl with ⟨hne_mem, hne_path⟩
        have hn : pathLookup oldEntries ne.path = none := by
          rw [hne_path]
          exact hol
        have hmem : (⟨"add", ne⟩ : DiffChange) ∈ compute_diff oldEntries newEntries :=
          (mem_compute_diff _ _ _).mpr
            (Or.inl ⟨ne, hne_mem, (diffAddModify_eq_some_iff _ _ _).mpr
              (Or.inl ⟨hn, rfl⟩)⟩)
        exact hnochange _ hmem hne_path

/-- Claim C4 (amended): for path-unique old and new entry vectors, the
computed diff consists of three disjoint-by-path change sets — adds are
exactly the paths in new and not in old, removes exactly the paths in old
and not in new, and modifications exactly the common paths where size,
modified-at, permission bits, is-directory or is-symlink changed — and
applying the adds, removes and modifications to the old state in any order
yields the new state, provided that entries sharing a path whose compared
fields are all unchanged are equal (is_entry_modified ignores the remaining
fields, such as created-at, owner and group, so without this proviso the
result can disagree with the new state there, as the counterexample shows). -/
theorem c4_compute_diff_amended (oldEntries newEntries : List FileEntry)
    (hOld : oldEntries.Pairwise (fun a b => a.path ≠ b.path))
    (hNew : newEntries.Pairwise (fun a b => a.path ≠ b.path)) :
    (∀ p : String,
      (∃ c ∈ compute_diff oldEntries newEntries,
          c.change_type = "add" ∧ c.entry.path = p)
        ↔ ((∃ e ∈ newEntries, e.path = p) ∧ ¬ ∃ e ∈ oldEntries, e.path = p))
    ∧ (∀ p : String,
      (∃ c ∈ compute_diff oldEntries newEntries,
          c.change_type = "remove" ∧ c.entry.path = p)
        ↔ ((∃ e ∈ oldEntries, e.path = p) ∧ ¬ ∃ e ∈ newEntries, e.path = p))
    ∧ (∀ p : String,
      (∃ c ∈ compute_diff oldEntries newEntries,
          c.change_type = "modify" ∧ c.entry.path = p)
        ↔ (∃ oe ∈ oldEntries, ∃ ne ∈ newEntries,
            oe.path = p ∧ ne.path = p ∧ is_entry_modified oe ne = true))
    ∧ (compute_diff oldEntries newEntries).Pairwise
        (fun c1 c2 => c1.entry.path ≠ c2.entry.path)
    ∧ ((∀ oe ∈ oldEntries, ∀ ne ∈ newEntries,
          oe.path = ne.path → is_entry_modified oe ne = false → oe = ne) →
        ∀ cs : List DiffChange,
          List.Perm cs (compute_diff oldEntries newEntries) →
        ∀ p : String,
          (cs.foldl applyDiffChange (pathLookup oldEntries)) p
            = pathLookup newEntries p) :=
  ⟨c4aux_add_char oldEntries newEntries,
    c4aux_remove_char oldEntries newEntries,
    c4aux_modify_char oldEntries newEntries hOld,
    compute_diff_pairwise oldEntries newEntries hOld hNew,
    c4aux_application oldEntries newEntries hOld hNew⟩

/-- Witness for c4_compute_diff_amended at concrete one-entry vectors: the
diff of [c4Old] against the empty directory is a single remove, and applying
it to the old state empties it. -/
theorem c4_compute_diff_amended_witness :
    ((compute_diff [c4Old] []).foldl applyDiffChange (pathLookup [c4Old])) "/t/a.txt"
      = pathLookup [] "/t/a.txt" :=
  (c4_compute_diff_amended [c4Old] [] (by decide) (by decide)).2.2.2.2
    (by decide) (compute_diff [c4Old] []) (List.Perm.refl _) "/t/a.txt"

/-!  Claims C2 and C3: the listing cache of operations.rs and the watcher of
watcher.rs.  The two process-wide maps (LISTING_CACHE and WATCHER_MANAGER)
are modelled as association lists with unique keys, threaded explicitly. -/

/-- Embedding of the Rust struct CachedListing (operations.rs): the
directory path and the full sorted entry vector. -/
structure CachedListing where
  path : String
  entries : List FileEntry
  deriving DecidableEq, Repr

/-- Lookup in the LISTING_CACHE map. -/
def cacheLookup (cache : List (String × CachedListing)) (listing_id : String) :
    Option CachedListing :=
  (cache.find? (fun kv => kv.1 = listing_id)).map Prod.snd

/-- Outcome of running an RPC operation: a value, an error string, or a Rust
panic. -/
inductive RunResult (α : Type) where
  | ok (value : α)
  | err (msg : String)
  | panicked
  deriving DecidableEq, Repr

/-- Embedding of Rust slice indexing of a vector from lo to hi: the slice
when lo ≤ hi ≤ length, and the Rust panic otherwise. -/
def rustSlice (v : List FileEntry) (lo hi : Nat) : RunResult (List FileEntry) :=
  if lo ≤ hi ∧ hi ≤ v.length then .ok ((v.drop lo).take (hi - lo)) else .panicked

/-- Embedding of usize addition, wrapping modulo 2^64 as in release builds
(in debug builds the overflow itself panics; the totality claim fails either
way, so the wrapping semantics is the one modelled). -/
def usizeAdd (a b : Nat) : Nat := (a + b) % (2 ^ 64)

/-- Embedding of the Rust test name.starts_with of a dot: the first
character of the name is a dot. -/
def isHiddenName (e : FileEntry) : Bool := e.name.data.head? = some '.'

/-- Embedding of get_file_range (operations.rs): look the listing up and
slice the stored vector — filtered of dot-names first when include_hidden is
false — from start to min(start + count, length). -/
def get_file_range (cache : List (String × CachedListing)) (listing_id : String)
    (start count : Nat) (include_hidden : Bool) : RunResult (List FileEntry) :=
  match cacheLookup cache listing_id with
  | none => .err ("Listing not found: " ++ listing_id)
  | some listing =>
    if include_hidden then
      rustSlice listing.entries start
        (min (usizeAdd start count) listing.entries.length)
    else
      let visible := listing.entries.filter (fun e => !(isHiddenName e))
      rustSlice visible start (min (usizeAdd start count) visible.length)

/-- A one-listing cache for the C3 record. -/
def c3Cache : List (String × CachedListing) :=
  [("L1", ⟨"/t", [mkNamedFile "a.txt"]⟩)]

/-- Claim C3 refuted (code bug): with one cached entry, requesting the range
starting at 2 hits the Rust slice panic (the slice runs from 2 to
min(2 + count, 1) = 1, and a slice whose start exceeds its end panics), so
get_file_range is not total; an unknown id still yields the
listing-not-found error, in-range requests the slice, and a start exactly at
the end the empty vector. -/
theorem c3_get_file_range_panics :
    get_file_range c3Cache "L1" 2 1 true = .panicked
    ∧ get_file_range c3Cache "L1" 0 2 true = .ok [mkNamedFile "a.txt"]
    ∧ get_file_range c3Cache "L1" 1 5 true = .ok []
    ∧ get_file_range c3Cache "missing" 0 1 true
        = .err "Listing not found: missing"
    ∧ get_file_range c3Cache "L1" 2 1 false = .panicked := by
  refine ⟨by decide, by decide, by decide, by decide, by decide⟩

/-- Embedding of the Rust struct WatchedDirectory (watcher.rs): the watched
path, the watcher's own entry vector, and the sequence counter (the
debouncer handle is an OS resource with no bearing on the claims). -/
structure WatchedDirectory where
  path : String
  entries : List FileEntry
  sequence : Nat
  deriving DecidableEq, Repr

/-- Embedding of the Rust struct DirectoryDiff (watcher.rs). -/
structure DirectoryDiff where
  session_id : String
  sequence : Nat
  changes : List DiffChange
  deriving DecidableEq, Repr

/-- The combined process state of the two modules: the LISTING_CACHE of
operations.rs and the watches map of the WATCHER_MANAGER of watcher.rs. -/
structure AppState where
  listingCache : List (String × CachedListing)
  watches : List (String × WatchedDirectory)
  deriving DecidableEq, Repr

/-- Lookup in the watches map. -/
def watchLookup (watches : List (String × WatchedDirectory)) (session_id : String) :
    Option WatchedDirectory :=
  (watches.find? (fun kv => kv.1 = session_id)).map Prod.snd

/-- In-place mutation of one row of the watches map, as through get_mut. -/
def watchUpdate (watches : List (String × WatchedDirectory)) (session_id : String)
    (w : WatchedDirectory) : List (String × WatchedDirectory) :=
  watches.map (fun kv => if kv.1 = session_id then (kv.1, w) else kv)

/-- Embedding of update_listing_entries (operations.rs): replaces the entry
vector of one cached listing.  The source declares it for the watcher, but
nothing in the snapshot ever calls it. -/
def update_listing_entries (cache : List (String × CachedListing))
    (listing_id : String) (entries : List FileEntry) :
    List (String × CachedListing) :=
  cache.map (fun kv => if kv.1 = listing_id then (kv.1, ⟨kv.2.path, entries⟩) else kv)

/-- Embedding of handle_directory_change (watcher.rs).  The directory
re-read (list_directory_core on the watched path) is I/O and is passed in as
readResult; the app handle is taken as present, so the emitted event is the
returned value.  The function reads the watch, computes the diff against the
watcher's own stored vector, and on a non-empty diff swaps that vector,
increments the watch sequence and emits; it never touches the
LISTING_CACHE. -/
def handle_directory_change (st : AppState) (session_id : String)
    (readResult : Except String (List FileEntry)) :
    AppState × Option DirectoryDiff :=
  match watchLookup st.watches session_id with
  | none => (st, none)
  | some w =>
    match readResult with
    | .error _ => (st, none)
    | .ok newEntries =>
      let changes := compute_diff w.entries newEntries
      if changes.isEmpty then (st, none)
      else
        ({ st with watches :=
            watchUpdate st.watches session_id ⟨w.path, newEntries, w.sequence + 1⟩ },
          some ⟨session_id, w.sequence + 1, changes⟩)

/-- The entry already present before the watcher fire. -/
def c2A : FileEntry := mkNamedFile "a.txt"

/-- The entry created on disk, present in the re-read snapshot. -/
def c2B : FileEntry := mkNamedFile "b.txt"

/-- The process state of an active listing L over a directory holding c2A:
both the listing cache and the watcher hold the vector [c2A]. -/
def c2State : AppState :=
  ⟨[("L", ⟨"/t", [c2A]⟩)], [("L", ⟨"/t", [c2A], 0⟩)]⟩

/-- Claim C2 refuted (code bug): after a debounced watcher fire whose
re-read returns [c2A, c2B] (a non-empty diff: one add), the watcher swaps
only its own private vector and increments its sequence by 1 and emits the
event — while the LISTING_CACHE vector, the one get_file_range reads, is
left unchanged, so the range query still serves the stale [c2A]. -/
theorem c2_watcher_swap_misses_listing_cache :
    watchLookup (handle_directory_change c2State "L" (.ok [c2A, c2B])).1.watches "L"
        = some ⟨"/t", [c2A, c2B], 1⟩
    ∧ (handle_directory_change c2State "L" (.ok [c2A, c2B])).2
        = some ⟨"L", 1, [⟨"add", c2B⟩]⟩
    ∧ (handle_directory_change c2State "L" (.ok [c2A, c2B])).1.listingCache
        = c2State.listingCache
    ∧ get_file_range
        (handle_directory_change c2State "L" (.ok [c2A, c2B])).1.listingCache
        "L" 0 2 true = .ok [c2A]
    ∧ get_file_range
        (handle_directory_change c2State "L" (.ok [c2A, c2B])).1.listingCache
        "L" 0 2 true ≠ .ok [c2A, c2B] := by
  refine ⟨by decide, by decide, by decide, by decide, by decide⟩

/-!  Claim C6: the share-cache policy of list_shares
     (src-tauri/src/network/smb_client.rs).  Instants are natural-number
seconds; the network call list_shares_uncached is I/O and its outcome is
passed in as a parameter. -/

/-- Embedding of the Rust enum AuthMode (smb_client.rs). -/
inductive AuthMode where
  | GuestAllowed
  | CredsRequired
  | Unknown
  deriving DecidableEq, Repr

/-- Embedding of the Rust struct ShareInfo (smb_client.rs). -/
structure ShareInfo where
  name : String
  is_disk : Bool
  comment : Option String
  deriving DecidableEq, Repr

/-- Embedding of the Rust struct ShareListResult (smb_client.rs). -/
structure ShareListResult where
  shares : List ShareInfo
  auth_mode : AuthMode
  from_cache : Bool
  deriving DecidableEq, Repr

/-- Embedding of the Rust enum ShareListError (smb_client.rs). -/
inductive ShareListError where
  | HostUnreachable (msg : String)
  | Timeout (msg : String)
  | AuthRequired (msg : String)
  | SigningRequired (msg : String)
  | AuthFailed (msg : String)
  | ProtocolError (msg : String)
  | ResolutionFailed (msg : String)
  deriving DecidableEq, Repr

/-- Embedding of the Rust struct CachedShares (smb_client.rs). -/
structure CachedShares where
  result : ShareListResult
  expires_at : Nat
  deriving DecidableEq, Repr

/-- The 30-second cache TTL of smb_client.rs. -/
def CACHE_TTL : Nat := 30

/-- Lookup in the SHARE_CACHE map. -/
def shareCacheLookup (cache : List (String × CachedShares)) (host_id : String) :
    Option CachedShares :=
  (cache.find? (fun kv => kv.1 = host_id)).map Prod.snd

/-- Embedding of get_cached_shares (smb_client.rs): a cache row still valid
at the current instant is returned with from_cache set to true. -/
def get_cached_shares (cache : List (String × CachedShares)) (now : Nat)
    (host_id : String) : Option ShareListResult :=
  match shareCacheLookup cache host_id with
  | none => none
  | some entry =>
    if now < entry.expires_at then
      some ⟨entry.result.shares, entry.result.auth_mode, true⟩
    else none

/-- Embedding of cache_shares (smb_client.rs): expired rows are pruned and
the result is stored under the host id with a fresh 30-second expiry. -/
def cache_shares (cache : List (String × CachedShares)) (now : Nat)
    (host_id : String) (result : ShareListResult) : List (String × CachedShares) :=
  (host_id, ⟨result, now + CACHE_TTL⟩) ::
    (cache.filter (fun kv => now < kv.2.expires_at)).filter
      (fun kv => kv.1 ≠ host_id)

/-- Embedding of list_shares (smb_client.rs): the cache is read only when no
credentials are supplied; otherwise, and on a cache miss, the uncached
result is returned and, when successful, stored in the cache. -/
def list_shares (cache : List (String × CachedShares)) (now : Nat)
    (host_id : String) (has_credentials : Bool)
    (uncached : Except ShareListError ShareListResult) :
    Except ShareListError ShareListResult × List (String × CachedShares) :=
  match (if has_credentials then none else get_cached_shares cache now host_id) with
  | some cached => (.ok cached, cache)
  | none =>
    match uncached with
    | .error e => (.error e, cache)
    | .ok result => (.ok result, cache_shares cache now host_id result)

/-- Claim C6: list_shares reads the 30-second share cache only when no
credentials are supplied and writes the cache on every success;
consequently, after an authenticated call stores a CredsRequired result for
a host id, any unauthenticated call for the same host id within the TTL
returns the same shares and auth mode with from_cache = true (without
touching the network or the cache), while an authenticated call always
skips the cached value and returns the fresh result. -/
theorem c6_list_shares_cache_policy
    (cache : List (String × CachedShares)) (t0 t1 : Nat) (host_id : String)
    (r : ShareListResult) (uncached2 : Except ShareListError ShareListResult)
    (_hmode : r.auth_mode = AuthMode.CredsRequired)
    (httl : t1 < t0 + CACHE_TTL) :
    (list_shares cache t0 host_id true (.ok r)).1 = .ok r
    ∧ list_shares (list_shares cache t0 host_id true (.ok r)).2 t1 host_id
        false uncached2
      = (.ok ⟨r.shares, r.auth_mode, true⟩,
         (list_shares cache t0 host_id true (.ok r)).2) := by
  have hsnd : (list_shares cache t0 host_id true (.ok r)).2
      = cache_shares cache t0 host_id r := rfl
  refine ⟨rfl, ?_⟩
  rw [hsnd]
  have hc : get_cached_shares (cache_shares cache t0 host_id r) t1 host_id
      = some ⟨r.shares, r.auth_mode, true⟩ := by
    unfold get_cached_shares shareCacheLookup cache_shares
    rw [List.find?_cons_of_pos _ (by simp)]
    simp [httl]
  simp [list_shares, hc]

/-- A concrete share-list result for the C6 witness. -/
def c6R : ShareListResult :=
  ⟨[⟨"Public", true, none⟩], AuthMode.CredsRequired, false⟩

/-- Witness for c6_list_shares_cache_policy at the empty cache and concrete
instants 0 and 10. -/
theorem c6_list_shares_cache_policy_witness :
    (list_shares [] 0 "host1" true (.ok c6R)).1 = .ok c6R
    ∧ list_shares (list_shares [] 0 "host1" true (.ok c6R)).2 10 "host1"
        false (.error (.Timeout "down"))
      = (.ok ⟨c6R.shares, c6R.auth_mode, true⟩,
         (list_shares [] 0 "host1" true (.ok c6R)).2) :=
  c6_list_shares_cache_policy [] 0 10 "host1" c6R (.error (.Timeout "down"))
    rfl (by decide)

/-!  Claim C10: the in-memory volume
     (src-tauri/src/file_system/volume/in_memory.rs).  Paths are modelled as
an absolute flag plus components; the empty path and the lone dot normalize
to the root, exactly as in normalize.  The clock behind now_secs is passed
in as a parameter. -/

/-- Model of a Rust Path: whether it is absolute, and its components. -/
structure RPath where
  absolute : Bool
  components : List String
  deriving DecidableEq, Repr

/-- Embedding of InMemoryVolume::normalize: the empty path (or the lone
dot, both modelled as the empty component list) becomes the root, an
absolute path stays itself, and a relative path is joined onto the root. -/
def normalizePath (p : RPath) : RPath :=
  if p.components = [] then ⟨true, []⟩
  else if p.absolute then p
  else ⟨true, p.components⟩

/-- Display form of a path, used in NotFound messages. -/
def displayPath (p : RPath) : String :=
  (if p.absolute then "/" else "") ++ String.intercalate "/" p.components

/-- Embedding of the Rust enum VolumeError (volume/mod.rs). -/
inductive VolumeError where
  | NotFound (msg : String)
  | PermissionDenied (msg : String)
  | NotSupported (msg : String)
  | IoError (msg : String)
  deriving DecidableEq, Repr

/-- Embedding of the Rust struct InMemoryEntry (in_memory.rs): full metadata
and optional content bytes. -/
structure InMemoryEntry where
  metadata : FileEntry
  content : Option (List Nat)
  deriving DecidableEq, Repr

/-- Lookup in the entries map of the in-memory volume. -/
def entriesLookup (entries : List (RPath × InMemoryEntry)) (p : RPath) :
    Option InMemoryEntry :=
  (entries.find? (fun kv => kv.1 = p)).map Prod.snd

/-- HashMap insert: the key is overwritten when present. -/
def entriesInsert (entries : List (RPath × InMemoryEntry)) (p : RPath)
    (v : InMemoryEntry) : List (RPath × InMemoryEntry) :=
  (p, v) :: entries.filter (fun kv => kv.1 ≠ p)

/-- HashMap remove. -/
def entriesRemove (entries : List (RPath × InMemoryEntry)) (p : RPath) :
    List (RPath × InMemoryEntry) :=
  entries.filter (fun kv => kv.1 ≠ p)

/-- Embedding of InMemoryVolume::create_file: inserts a non-directory,
non-symlink entry whose size is the content length, named after the last
path component, with the fixed test permissions and owner.  The only error
path in the source is lock poisoning, which the sequential model has no
counterpart for, so the new state is returned directly. -/
def inMemory_create_file (entries : List (RPath × InMemoryEntry)) (path : RPath)
    (content : List Nat) (now : Nat) : List (RPath × InMemoryEntry) :=
  let normalized := normalizePath path
  let name := normalized.components.getLast?.getD ""
  entriesInsert entries normalized
    ⟨⟨name, displayPath normalized, false, false, some content.length,
       some now, some now, none, none, 420, "testuser", "staff", "file", true⟩,
     some content⟩

/-- Embedding of InMemoryVolume::get_metadata. -/
def inMemory_get_metadata (entries : List (RPath × InMemoryEntry)) (path : RPath) :
    Except VolumeError FileEntry :=
  match entriesLookup entries (normalizePath path) with
  | some e => .ok e.metadata
  | none => .error (.NotFound (displayPath (normalizePath path)))

/-- Embedding of InMemoryVolume::exists. -/
def inMemory_exists (entries : List (RPath × InMemoryEntry)) (path : RPath) : Bool :=
  (entriesLookup entries (normalizePath path)).isSome

/-- Embedding of InMemoryVolume::delete. -/
def inMemory_delete (entries : List (RPath × InMemoryEntry)) (path : RPath) :
    Except VolumeError (List (RPath × InMemoryEntry)) :=
  match entriesLookup entries (normalizePath path) with
  | some _ => .ok (entriesRemove entries (normalizePath path))
  | none => .error (.NotFound (displayPath (normalizePath path)))

theorem entriesLookup_insert (entries : List (RPath × InMemoryEntry))
    (p : RPath) (v : InMemoryEntry) :
    entriesLookup (entriesInsert entries p v) p = some v := by
  unfold entriesLookup entriesInsert
  rw [List.find?_cons_of_pos _ (by simp)]
  rfl

theorem entriesLookup_remove (entries : List (RPath × InMemoryEntry)) (p : RPath) :
    entriesLookup (entriesRemove entries p) p = none := by
  unfold entriesLookup entriesRemove
  rw [List.find?_eq_none.mpr]
  · rfl
  · intro kv hkv
    have hne := List.of_mem_filter hkv
    simp at hne ⊢
    exact hne

/-- Claim C10: on an in-memory volume, immediately after create_file(p, c)
succeeds, exists(p) is true and get_metadata(p) returns a non-directory,
non-symlink entry whose size is the length of c; after a subsequent
delete(p) succeeds, exists(p) is false (and the delete does succeed). -/
theorem c10_in_memory_create_get_delete (entries : List (RPath × InMemoryEntry))
    (p : RPath) (c : List Nat) (now : Nat) :
    inMemory_exists (inMemory_create_file entries p c now) p = true
    ∧ (∃ e, inMemory_get_metadata (inMemory_create_file entries p c now) p = .ok e
        ∧ e.is_directory = false ∧ e.is_symlink = false ∧ e.size = some c.length)
    ∧ (∃ st3, inMemory_delete (inMemory_create_file entries p c now) p = .ok st3
        ∧ inMemory_exists st3 p = false) := by
  have hlook : entriesLookup (inMemory_create_file entries p c now) (normalizePath p)
      = some ⟨⟨(normalizePath p).components.getLast?.getD "",
          displayPath (normalizePath p), false, false, some c.length,
          some now, some now, none, none, 420, "testuser", "staff", "file", true⟩,
        some c⟩ := by
    unfold inMemory_create_file
    exact entriesLookup_insert entries (normalizePath p) _
  refine ⟨?_, ?_, ?_⟩
  · unfold inMemory_exists
    rw [hlook]
    rfl
  · refine ⟨⟨(normalizePath p).components.getLast?.getD "",
        displayPath (normalizePath p), false, false, some c.length,
        some now, some now, none, none, 420, "testuser", "staff", "file", true⟩,
      ?_, rfl, rfl, rfl⟩
    unfold inMemory_get_metadata
    rw [hlook]
  · refine ⟨entriesRemove (inMemory_create_file entries p c now) (normalizePath p), ?_, ?_⟩
    · unfold inMemory_delete
      rw [hlook]
    · unfold inMemory_exists
      rw [entriesLookup_remove]
      rfl
